import Mathlib

/-!
Shallow embedding of the core data pipeline of the Ramadan price-monitoring
dashboard: the CSV parser and loader (src/lib/csvLoader.ts), the price-change
engine (src/lib/calc.ts), the ticker lookup (ProductTicker.tsx), the KPI
adherence metric (KPICards), the card badges (ProductCard.tsx) and the
ranking/export logic of App.tsx.  JS numbers are modelled as rationals,
undefined/NaN as Option, and fallible operations return Except.
-/

namespace Pcbs

/- Batteries marks the rational arithmetic operations irreducible, which blocks
the elaborator-side evaluation that `decide` performs on the concrete CSV
fixtures below.  Restoring the default reducibility for this file keeps every
witness computation a plain kernel evaluation. -/
set_option allowUnsafeReducibility true

attribute [local semireducible] Rat.add Rat.sub Rat.mul Rat.div Rat.inv Rat.neg

deriving instance DecidableEq for Except

/-- A parsed CSV cell, modelling the string-or-number union produced by parseCSV. -/
inductive Cell where
  | str : String → Cell
  | num : Rat → Cell
deriving DecidableEq

/-- JS String.prototype.trim: drop whitespace from both ends of the character list. -/
def jsTrim (l : List Char) : List Char :=
  ((l.dropWhile Char.isWhitespace).reverse.dropWhile Char.isWhitespace).reverse

/-- The regex test in parseCSV for a leading-zero numeric-looking code:
a zero followed by one or more digits (csvLoader.ts line 138). -/
def looksLikeCode (l : List Char) : Bool :=
  match l with
  | '0' :: rest => !rest.isEmpty && rest.all Char.isDigit
  | _ => false

/-- Body of the plain-decimal regex in parseCSV: one or more digits optionally
followed by a dot and one or more digits. -/
def numericBody (l : List Char) : Bool :=
  let ds := l.takeWhile Char.isDigit
  let rest := l.dropWhile Char.isDigit
  !ds.isEmpty &&
    (match rest with
     | [] => true
     | '.' :: fs => !fs.isEmpty && fs.all Char.isDigit
     | _ => false)

/-- The regex test in parseCSV for an optionally-signed plain decimal number
(csvLoader.ts line 139). -/
def looksNumeric (l : List Char) : Bool :=
  match l with
  | '-' :: rest => numericBody rest
  | _ => numericBody l

/-- Value of a digit string read in base 10. -/
def digitsVal (l : List Char) : Nat :=
  l.foldl (fun a c => 10 * a + (c.toNat - 48)) 0

/-- Value of an unsigned decimal literal (integer part, optional fraction). -/
def decBody (l : List Char) : Rat :=
  let ds := l.takeWhile Char.isDigit
  let fs := l.dropWhile Char.isDigit
  (digitsVal ds : Rat) +
    (match fs with
     | '.' :: t => (digitsVal t : Rat) / ((10 : Rat) ^ t.length)
     | _ => 0)

/-- Value of an optionally-signed decimal literal: the JS Number() conversion on
the strings accepted by the parseCSV numeric regex. -/
def decValue (l : List Char) : Rat :=
  match l with
  | '-' :: rest => -(decBody rest)
  | _ => decBody l

/-- Per-field type coercion of parseCSV (csvLoader.ts lines 130-147), applied to
the trimmed cell text: empty stays the empty string, a leading-zero code stays a
string, a plain optionally-signed decimal becomes a number, anything else stays
a string. -/
def coerceCell (l : List Char) : Cell :=
  if l.isEmpty then .str ""
  else if !looksLikeCode l && looksNumeric l then .num (decValue l)
  else .str (String.mk l)

/-- pushRow of parseCSV (csvLoader.ts lines 83-86): a completed row is kept only
if some field is nonempty after trimming. -/
def pushRowF (row : List (List Char)) (rows : List (List (List Char))) :
    List (List (List Char)) :=
  if row.any (fun v => !(jsTrim v).isEmpty) then rows ++ [row] else rows

/-- The character scanner of parseCSV (csvLoader.ts lines 73-118): splits text
into rows of fields, tracking quote state, with doubled quotes as escapes inside
a quoted region; commas and newlines are delimiters only outside quotes. -/
def csvScan : Bool → List Char → List (List Char) → List (List (List Char)) →
    List Char → List (List (List Char))
  | _, field, curRow, rows, [] => pushRowF (curRow ++ [field]) rows
  | true, field, curRow, rows, '"' :: '"' :: rest =>
      csvScan true (field ++ ['"']) curRow rows rest
  | true, field, curRow, rows, '"' :: rest => csvScan false field curRow rows rest
  | false, field, curRow, rows, '"' :: rest => csvScan true field curRow rows rest
  | false, field, curRow, rows, ',' :: rest =>
      csvScan false [] (curRow ++ [field]) rows rest
  | false, field, curRow, rows, '\n' :: rest =>
      csvScan false [] [] (pushRowF (curRow ++ [field]) rows) rest
  | inQ, field, curRow, rows, c :: rest => csvScan inQ (field ++ [c]) curRow rows rest

/-- Newline normalization of parseCSV (csvLoader.ts lines 65-67): CRLF and lone
CR both become LF. -/
def normNL : List Char → List Char
  | [] => []
  | '\r' :: '\n' :: rest => '\n' :: normNL rest
  | '\r' :: rest => '\n' :: normNL rest
  | c :: rest => c :: normNL rest

/-- JS object-property assignment on a record modelled as an association list:
overwrite the existing key or append a new one. -/
def objSet (obj : List (String × Cell)) (k : String) (v : Cell) :
    List (String × Cell) :=
  if obj.any (fun p => p.1 = k) then
    obj.map (fun p => if p.1 = k then (k, v) else p)
  else obj ++ [(k, v)]

/-- Record construction of parseCSV (csvLoader.ts lines 127-147): zip the headers
against the row fields (missing trailing fields default to the empty string),
trimming and coercing each value. -/
def buildObj : List (String × Cell) → List String → List (List Char) →
    List (String × Cell)
  | obj, [], _ => obj
  | obj, h :: hs, vs =>
      buildObj (objSet obj h (coerceCell (jsTrim (vs.headD [])))) hs vs.tail

/-- parseCSV (csvLoader.ts lines 64-153): normalize newlines, trim, scan into
rows of fields, use the first row as (trimmed) headers and turn every later row
into a record of coerced cells. -/
def parseCSV (csvText : String) : List (List (String × Cell)) :=
  let text := jsTrim (normNL csvText.data)
  if text.isEmpty then []
  else
    match csvScan false [] [] [] text with
    | [] => []
    | headerRow :: dataRows =>
      let headers := headerRow.map (fun h => String.mk (jsTrim h))
      dataRows.map (fun values => buildObj [] headers values)

/-- A weekly price observation as produced by the loader (csvLoader.ts 202-209). -/
structure PriceRow where
  id : String
  product_id : String
  week_number : Rat
  price : Rat
  week_date : Option String
deriving DecidableEq

/-- A product with its merged weekly prices (the ProductWithPrices shape of
src/types, as produced by the loader). -/
structure ProductWithPrices where
  id : String
  name : String
  icon : String
  color : String
  weight : Option String
  reference_price : Rat
  display_order : Rat
  prices : List PriceRow
deriving DecidableEq

/-- The PriceChange result of calc.ts. -/
structure PriceChange where
  product : ProductWithPrices
  percent : Rat
  change : Rat
deriving DecidableEq

/-- The exact-week price lookup inlined in calculatePriceChange (calc.ts line 4):
the observation whose week_number equals the requested week, or 0 if absent. -/
def weekPriceExact (product : ProductWithPrices) (week : Rat) : Rat :=
  ((product.prices.find? (fun p => decide (p.week_number = week))).map
    PriceRow.price).getD 0

/-- calculatePriceChange (calc.ts lines 3-11). -/
def calculatePriceChange (product : ProductWithPrices) (week : Rat) : PriceChange :=
  let weekPrice := weekPriceExact product week
  let ref := product.reference_price
  let change := weekPrice - ref
  let percent := if ref > 0 then change / ref * 100 else 0
  ⟨product, percent, change⟩

/-- The change category of calc.ts. -/
inductive ChangeCategory where
  | increase
  | decrease
  | stable
deriving DecidableEq

/-- getChangeCategory with an explicit threshold (calc.ts lines 16-20). -/
def getChangeCategoryWith (pct threshold : Rat) : ChangeCategory :=
  if pct > threshold then .increase
  else if pct < -threshold then .decrease
  else .stable

/-- getChangeCategory at its default threshold 0.0001 (calc.ts line 16). -/
def getChangeCategory (pct : Rat) : ChangeCategory :=
  getChangeCategoryWith pct (1 / 10000)

/-- Stable insertion of a price row into a week-descending list: the new row goes
after every row whose week is greater or equal, matching a stable JS sort with
comparator b.week_number - a.week_number. -/
def insertWeekDesc (x : PriceRow) : List PriceRow → List PriceRow
  | [] => [x]
  | y :: ys =>
      if y.week_number ≥ x.week_number then y :: insertWeekDesc x ys
      else x :: y :: ys

/-- Stable sort by descending week_number, as used in getLatestPriceUpToWeek. -/
def sortWeekDesc (l : List PriceRow) : List PriceRow :=
  l.foldl (fun acc x => insertWeekDesc x acc) []

/-- getLatestPriceUpToWeek (ProductTicker.tsx lines 23-31): the price of the
observation with the greatest week_number at or below the requested week, or 0
when there is none (empty list included). -/
def getLatestPriceUpToWeek (p : ProductWithPrices) (week : Rat) : Rat :=
  if p.prices.isEmpty then 0
  else
    match (sortWeekDesc (p.prices.filter
        (fun x => decide (x.week_number ≤ week)))).head? with
    | some cand => cand.price
    | none => 0

/-- clamp from KPICards: Math.max(min, Math.min(max, n)). -/
def clamp (n lo hi : Rat) : Rat := max lo (min hi n)

/-- JS Math.round: round half toward positive infinity. -/
def jsRound (x : Rat) : Int := (x + 1 / 2).floor

/-- computedAdherence of KPICards: when no explicit percentage is passed in, count
the products whose current-week price is at or below a positive reference price
and divide by the total number of products, times 100, rounded. -/
def computedAdherence (adherencePercent : Option Rat)
    (products : List ProductWithPrices) (currentWeek : Rat) : Rat :=
  match adherencePercent with
  | some a => clamp a 0 100
  | none =>
    if products.isEmpty then 0
    else
      let count := products.foldl (fun acc p =>
        let price := weekPriceExact p currentWeek
        let ref := p.reference_price
        if ref ≤ 0 then acc else if price ≤ ref then acc + 1 else acc) (0 : Nat)
      ((jsRound ((count : Rat) / (products.length : Rat) * 100) : Int) : Rat)

/-- The numeric cells of one export row of App.exportToExcel (App.tsx 222-231),
before fixed-point string formatting.  Note that the export guards divisions by
truthiness (value different from 0), not positivity. -/
structure ExportNums where
  weekPrice : Rat
  prevPrice : Rat
  diffRef : Rat
  pctRef : Rat
  diffPrev : Rat
  pctPrev : Rat
deriving DecidableEq

/-- exportToExcel row computation (App.tsx 222-231). -/
def exportRowNums (product : ProductWithPrices) (currentWeek : Rat) : ExportNums :=
  let weekPrice := weekPriceExact product currentWeek
  let prevPrice :=
    if currentWeek > 1 then weekPriceExact product (currentWeek - 1) else 0
  let diffRef := weekPrice - product.reference_price
  let pctRef :=
    if product.reference_price ≠ 0 then diffRef / product.reference_price * 100
    else 0
  let diffPrev := weekPrice - prevPrice
  let pctPrev := if prevPrice ≠ 0 then diffPrev / prevPrice * 100 else 0
  ⟨weekPrice, prevPrice, diffRef, pctRef, diffPrev, pctPrev⟩

/-- The percent-versus-previous-week number computed by ProductCard
(ProductCard.tsx lines 41-53): 0 whenever the previous price is not positive,
week 1 included (its previous price is hardcoded to 0). -/
def cardPctPrev (product : ProductWithPrices) (currentWeek : Rat) : Rat :=
  let weekPrice := weekPriceExact product currentWeek
  let prevPrice :=
    if currentWeek > 1 then weekPriceExact product (currentWeek - 1) else 0
  if prevPrice > 0 then (weekPrice - prevPrice) / prevPrice * 100 else 0

/-- JS toFixed(1) on a nonnegative rational (as applied to Math.abs of a value). -/
def toFixed1 (x : Rat) : String :=
  let n := jsRound (x * 10)
  toString (n / 10) ++ "." ++ toString (n % 10)

/-- formatSignedPercent of ProductCard with one decimal (ProductCard.tsx 16-19). -/
def formatSignedPercent1 (v : Rat) : String :=
  (if v > 0 then "+" else if v < 0 then "−" else "") ++ toFixed1 (abs v) ++ "%"

/-- The percent-versus-previous-week text rendered in a product card
(ProductCard.tsx lines 177-189): an em-dash placeholder at week 1, the formatted
percentage otherwise. -/
def prevBadgeText (product : ProductWithPrices) (currentWeek : Rat) : String :=
  if currentWeek = 1 then "—" else formatSignedPercent1 (cardPctPrev product currentWeek)

/-- maxIncrease of App.tsx (lines 199-202): reduce keeping the entry with the
strictly greater percent, seeded with the first entry. -/
def maxIncrease (changes : List PriceChange) : Option PriceChange :=
  match changes with
  | [] => none
  | c0 :: rest =>
      some ((c0 :: rest).foldl (fun m x => if x.percent > m.percent then x else m) c0)

/-- maxDecrease of App.tsx (lines 204-207): reduce keeping the entry with the
strictly smaller percent, seeded with the first entry. -/
def maxDecrease (changes : List PriceChange) : Option PriceChange :=
  match changes with
  | [] => none
  | c0 :: rest =>
      some ((c0 :: rest).foldl (fun m x => if x.percent < m.percent then x else m) c0)

/-- The NAME_OVERRIDES table of csvLoader.ts (lines 36-58), keyed by normalized id. -/
def NAME_OVERRIDES : List (String × String) :=
  [("11100103", "أرز حبة قصيرة"), ("11100107", "أرز حبة طويلة"),
   ("11100301", "خبز كماج"), ("11210102", "لحم عجل طازج"),
   ("11210201", "لحم عجل مجمد"), ("11220102", "دجاج منظف"),
   ("11420303", "جبة غنم بيضاء"), ("11430001", "بيض دجاج"),
   ("11510203", "زيت الذرة"), ("11510204", "زيت عباد الشمس"),
   ("11520101", "سمنة نباتية"), ("11800105", "سكر"), ("11800202", "حلاوة"),
   ("11930206", "طحينية"), ("11100604", "قطايف"), ("11101301", "فريكة"),
   ("11740201", "عدس مجروش"), ("11740302", "حمص حب"),
   ("11210107", "لحم خروف طازج"), ("11210203", "لحم خروف مجمد"),
   ("11420105", "لبن رايب")]

/-- Lookup in the override table (JS object indexing). -/
def lookupOverride (id : String) : Option String :=
  (NAME_OVERRIDES.find? (fun p => p.1 = id)).map Prod.snd

/-- JS String() on a cell.  Every number this is applied to in the claims is an
integer, for which the rendering matches JS exactly; non-integers fall back to
the raw rational rendering. -/
def cellToString : Cell → String
  | .str s => s
  | .num q => if q.den = 1 then toString q.num else toString q

/-- JS String(x converted with the nullish default) on a possibly-absent cell. -/
def optCellToString (o : Option Cell) : String :=
  match o with
  | none => ""
  | some c => cellToString c

/-- normalizeId of csvLoader.ts (lines 60-62): String(v converted with the
nullish default) with all leading zeros stripped. -/
def normalizeId (o : Option Cell) : String :=
  String.mk ((optCellToString o).data.dropWhile (fun c => c = '0'))

/-- JS Number() on a string, with none standing for NaN.  The model covers the
empty/whitespace string (0) and plain signed decimals; other numeric forms JS
would accept do not occur in this pipeline. -/
def jsNumberOfString (s : String) : Option Rat :=
  let t := jsTrim s.data
  if t.isEmpty then some 0
  else if looksNumeric t then some (decValue t)
  else none

/-- JS Number() on a possibly-absent cell (none stands for NaN). -/
def jsNumberCell : Option Cell → Option Rat
  | none => none
  | some (.num q) => some q
  | some (.str s) => jsNumberOfString s

/-- The pattern Number(x) with a zero fallback used throughout the loader:
NaN (and 0 itself) becomes 0. -/
def numOr0 (o : Option Cell) : Rat := (jsNumberCell o).getD 0

/-- JS property access on a parsed record. -/
def getCell (r : List (String × Cell)) (k : String) : Option Cell :=
  (r.find? (fun p => p.1 = k)).map Prod.snd

/-- JS truthiness of a cell value. -/
def truthyCell : Cell → Bool
  | .str s => !s.isEmpty
  | .num q => q != 0

/-- The product mapping of loadDataFromCSV (csvLoader.ts lines 188-200): id
normalization, name override with fallback, string coercions, numeric coercions
with zero fallback.  The prices are attached later. -/
def toProduct (r : List (String × Cell)) : ProductWithPrices :=
  let id := normalizeId (getCell r "id")
  { id := id
    name := (lookupOverride id).getD (optCellToString (getCell r "name"))
    icon := optCellToString (getCell r "icon")
    color := optCellToString (getCell r "color")
    weight :=
      match getCell r "weight" with
      | some c => if truthyCell c then some (cellToString c) else none
      | none => none
    reference_price := numOr0 (getCell r "reference_price")
    display_order := numOr0 (getCell r "display_order")
    prices := [] }

/-- The price mapping of loadDataFromCSV (csvLoader.ts lines 202-209). -/
def toPriceRow (r : List (String × Cell)) : PriceRow :=
  { id := optCellToString (getCell r "id")
    product_id := normalizeId (getCell r "product_id")
    week_number := numOr0 (getCell r "week_number")
    price := numOr0 (getCell r "price")
    week_date :=
      match getCell r "week_date" with
      | some c => if truthyCell c then some (cellToString c) else none
      | none => none }

/-- Stable insertion by ascending display_order (ties keep the original order),
matching the stable JS sort with comparator a.display_order - b.display_order. -/
def insertOrderLe (x : ProductWithPrices) :
    List ProductWithPrices → List ProductWithPrices
  | [] => [x]
  | y :: ys =>
      if y.display_order ≤ x.display_order then y :: insertOrderLe x ys
      else x :: y :: ys

/-- Stable sort of products by display_order (csvLoader.ts line 212). -/
def sortByDisplayOrder (l : List ProductWithPrices) : List ProductWithPrices :=
  l.foldl (fun acc x => insertOrderLe x acc) []

/-- The pure core of loadDataFromCSV (csvLoader.ts lines 165-224).  The two fetch
statuses are passed in as booleans because network transport is outside the
embedding; a non-OK status makes the function throw, and otherwise the two CSV
texts are parsed, mapped, sorted, and joined by normalized product id. -/
def loadDataFromCSV (productsOk pricesOk : Bool) (productsText pricesText : String) :
    Except String (List ProductWithPrices) :=
  if !productsOk || !pricesOk then .error "Failed to load CSV files"
  else
    let productsRaw := parseCSV productsText
    let pricesRaw := parseCSV pricesText
    let products := productsRaw.map toProduct
    let prices := pricesRaw.map toPriceRow
    let productsSorted := sortByDisplayOrder products
    .ok (productsSorted.map (fun product =>
      { product with
        prices := prices.filter (fun p => decide (p.product_id = product.id)) }))

/-- The failure decision of App.loadData (App.tsx lines 94-116): the caller falls
back to sample data exactly when loadDataFromCSV throws or returns an empty
collection.  The later Arabic-collation re-sort does not affect this decision
and is not modelled. -/
def loadData (productsOk pricesOk : Bool) (productsText pricesText : String) :
    Except String (List ProductWithPrices) :=
  match loadDataFromCSV productsOk pricesOk productsText pricesText with
  | .error e => .error e
  | .ok data =>
      if data.isEmpty then .error "No data found in CSV files" else .ok data

/-- Is an Except a success? -/
def isOkE {ε α : Type} : Except ε α → Bool
  | .ok _ => true
  | .error _ => false

/-- RFC4180 escaping of a field body: a double quote becomes two double quotes. -/
def escapeQuotes : List Char → List Char
  | [] => []
  | c :: rest => (if c = '"' then ['"', '"'] else [c]) ++ escapeQuotes rest

/-- A fully quoted CSV field. -/
def quoteField (f : String) : List Char := '"' :: (escapeQuotes f.data ++ ['"'])

/-- One serialized CSV row: quoted fields joined by commas. -/
def serializeRow (r : List String) : List Char :=
  List.intercalate [','] (r.map quoteField)

/-- The character text of a serialized CSV table: rows joined by newlines. -/
def serializeTableChars (t : List (List String)) : List Char :=
  List.intercalate ['\n'] (t.map serializeRow)

/-- RFC4180-style serialization of a table with full quoting. -/
def serializeTable (t : List (List String)) : String :=
  String.mk (serializeTableChars t)

/-! ### Fixtures: small concrete collections used by witnesses and counterexamples -/

/-- A product with one week-1 observation exactly at its reference price 10. -/
def prodAdherent : ProductWithPrices :=
  { id := "a", name := "a", icon := "", color := "", weight := none,
    reference_price := 10, display_order := 0,
    prices := [{ id := "", product_id := "a", week_number := 1, price := 10,
                 week_date := none }] }

/-- A product with reference price 0 (no benchmark) and no observations. -/
def prodNoRef : ProductWithPrices :=
  { id := "b", name := "b", icon := "", color := "", weight := none,
    reference_price := 0, display_order := 0, prices := [] }

/-- A product with price 10 at weeks 1 and 2 against reference 10: a genuine
0-percent week-over-week change at week 2. -/
def prodStable : ProductWithPrices :=
  { id := "s", name := "s", icon := "", color := "", weight := none,
    reference_price := 10, display_order := 0,
    prices := [{ id := "", product_id := "s", week_number := 1, price := 10,
                 week_date := none },
               { id := "", product_id := "s", week_number := 2, price := 10,
                 week_date := none }] }

/-- A product whose only observation is at week 5. -/
def prodLateOnly : ProductWithPrices :=
  { id := "l", name := "l", icon := "", color := "", weight := none,
    reference_price := 10, display_order := 0,
    prices := [{ id := "", product_id := "l", week_number := 5, price := 7,
                 week_date := none }] }

/-- A products CSV with a single valid data row. -/
def csvProductsOne : String := "id,name,reference_price,display_order\n1,A,10,1"

/-- A weekly-prices CSV with a header but zero data rows. -/
def csvPricesHeaderOnly : String := "id,product_id,week_number,price"

/-- The products CSV of the end-to-end scenario (id written as 007). -/
def csvProductsE2E : String := "id,name,reference_price,display_order\n007,Test,10,1"

/-- The weekly-prices CSV of the end-to-end scenario (product_id written as 007). -/
def csvPricesE2E : String := "id,product_id,week_number,price\n1,007,1,12"

/-- The product the end-to-end scenario must load: id normalized to 7, reference
price 10, a single week-1 observation of 12. -/
def prodE2E : ProductWithPrices :=
  { id := "7", name := "Test", icon := "", color := "", weight := none,
    reference_price := 10, display_order := 1,
    prices := [{ id := "1", product_id := "7", week_number := 1, price := 12,
                 week_date := none }] }

/-! ### C1: adherence percentage -/

/-- The adherence percentage as the claim states it: adherent products with a
positive reference divided by the number of products with a positive reference
price, times 100, rounded. -/
def claimedAdherence (products : List ProductWithPrices) (w : Rat) : Rat :=
  let denom := products.countP (fun p => decide (0 < p.reference_price))
  let numer := products.countP (fun p =>
    decide (0 < p.reference_price ∧ weekPriceExact p w ≤ p.reference_price))
  ((jsRound ((numer : Rat) / (denom : Rat) * 100) : Int) : Rat)

/-- The adherence reduce of KPICards counts exactly the products with a positive
reference whose week price is at or below it. -/
theorem adherence_foldl_countP (w : Rat) (l : List ProductWithPrices) (n : Nat) :
    l.foldl (fun acc p =>
      let price := weekPriceExact p w
      let ref := p.reference_price
      if ref ≤ 0 then acc else if price ≤ ref then acc + 1 else acc) n =
    n + l.countP (fun p =>
      decide (0 < p.reference_price ∧ weekPriceExact p w ≤ p.reference_price)) := by
  induction l generalizing n with
  | nil => simp
  | cons p l ih =>
    simp only [List.foldl_cons, List.countP_cons, ih]
    by_cases h1 : p.reference_price ≤ 0
    · have h3 : ¬ (0 < p.reference_price ∧ weekPriceExact p w ≤ p.reference_price) := by
        rintro ⟨h2, -⟩; exact absurd h1 (not_le.mpr h2)
      simp [h1, h3]
    · by_cases h2 : weekPriceExact p w ≤ p.reference_price
      · have h3 : 0 < p.reference_price ∧ weekPriceExact p w ≤ p.reference_price :=
          ⟨not_le.mp h1, h2⟩
        simp [h1, h2, h3]
        omega
      · have h3 : ¬ (0 < p.reference_price ∧ weekPriceExact p w ≤ p.reference_price) := by
          rintro ⟨-, hc⟩; exact h2 hc
        simp [h1, h2, h3]

/-- C1 counterexample: with one adherent product (price 10 at reference 10) and
one product without a benchmark (reference 0), the code reports 50 percent while
the claimed formula (denominator restricted to positive-reference products)
gives 100 percent. -/
theorem C1_counterexample :
    computedAdherence none [prodAdherent, prodNoRef] 1 = 50 ∧
    claimedAdherence [prodAdherent, prodNoRef] 1 = 100 := by decide

/-- C1 (amended): the adherence percentage counts products with a positive
reference whose week price is at or below it, but divides by the total number of
products in the collection, times 100, rounded half up. -/
theorem C1_amended (products : List ProductWithPrices) (w : Rat)
    (h : products ≠ []) :
    computedAdherence none products w =
      ((jsRound (((products.countP (fun p =>
          decide (0 < p.reference_price ∧
            weekPriceExact p w ≤ p.reference_price))) : Rat) /
        (products.length : Rat) * 100) : Int) : Rat) := by
  have hne : products.isEmpty = false := by
    cases products with
    | nil => exact absurd rfl h
    | cons a l => rfl
  simp only [computedAdherence, hne, Bool.false_eq_true, if_false,
    adherence_foldl_countP, Nat.zero_add]

/-- C1 amended witness at a concrete two-product collection. -/
theorem C1_amended_witness :
    ([prodAdherent, prodNoRef] : List ProductWithPrices) ≠ [] ∧
    computedAdherence none [prodAdherent, prodNoRef] 1 =
      ((jsRound (((([prodAdherent, prodNoRef].countP (fun p =>
          decide (0 < p.reference_price ∧
            weekPriceExact p 1 ≤ p.reference_price))) : Rat)) /
        (([prodAdherent, prodNoRef] : List ProductWithPrices).length : Rat) * 100) :
          Int) : Rat) :=
  ⟨by decide, C1_amended [prodAdherent, prodNoRef] 1 (by decide)⟩

/-! ### C2: load failure conditions -/

/-- C2 counterexample: with both fetches OK, a valid products CSV and a
weekly-prices CSV that parses to zero usable rows, the load succeeds (each
product just gets an empty price list) instead of failing as claimed. -/
theorem C2_counterexample :
    parseCSV csvPricesHeaderOnly = [] ∧
    isOkE (loadData true true csvProductsOne csvPricesHeaderOnly) = true := by
  decide

/-- C2 (amended): the load falls back whenever either fetch has a non-OK status
or the products CSV parses to zero usable rows; an empty weekly-prices CSV alone
does not cause failure. -/
theorem C2_amended (pOk wOk : Bool) (pText wText : String)
    (h : pOk = false ∨ wOk = false ∨ parseCSV pText = []) :
    isOkE (loadData pOk wOk pText wText) = false := by
  rcases h with h | h | h
  · subst h; simp [loadData, loadDataFromCSV, isOkE]
  · subst h; cases pOk <;> simp [loadData, loadDataFromCSV, isOkE]
  · cases pOk with
    | false => simp [loadData, loadDataFromCSV, isOkE]
    | true =>
      cases wOk with
      | false => simp [loadData, loadDataFromCSV, isOkE]
      | true => simp [loadData, loadDataFromCSV, isOkE, h, sortByDisplayOrder]

/-- C2 amended witness: a non-OK products fetch makes the load fail. -/
theorem C2_amended_witness :
    isOkE (loadData false true csvProductsOne csvPricesHeaderOnly) = false :=
  C2_amended false true csvProductsOne csvPricesHeaderOnly (Or.inl rfl)

/-! ### C3: exact-match versus latest-at-or-before lookup -/

/-- C3: for a product observed exactly at weeks 1 and 3, a week-2 query gives
price 0 under the exact-match lookup used by calculatePriceChange, while the
latest-at-or-before lookup used by the ticker returns the week-1 price. -/
theorem C3_lookup_divergence (p1 p3 ref : Rat) :
    weekPriceExact
      { id := "x", name := "x", icon := "", color := "", weight := none,
        reference_price := ref, display_order := 0,
        prices := [{ id := "", product_id := "x", week_number := 1, price := p1,
                     week_date := none },
                   { id := "", product_id := "x", week_number := 3, price := p3,
                     week_date := none }] } 2 = 0 ∧
    (calculatePriceChange
      { id := "x", name := "x", icon := "", color := "", weight := none,
        reference_price := ref, display_order := 0,
        prices := [{ id := "", product_id := "x", week_number := 1, price := p1,
                     week_date := none },
                   { id := "", product_id := "x", week_number := 3, price := p3,
                     week_date := none }] } 2).change = 0 - ref ∧
    getLatestPriceUpToWeek
      { id := "x", name := "x", icon := "", color := "", weight := none,
        reference_price := ref, display_order := 0,
        prices := [{ id := "", product_id := "x", week_number := 1, price := p1,
                     week_date := none },
                   { id := "", product_id := "x", week_number := 3, price := p3,
                     week_date := none }] } 2 = p1 := by
  have e12 : ((1 : Rat) = 2) = False := by norm_num
  have e32 : ((3 : Rat) = 2) = False := by norm_num
  have le12 : ((1 : Rat) ≤ 2) = True := by norm_num
  have le32 : ((3 : Rat) ≤ 2) = False := by norm_num
  refine ⟨?_, ?_, ?_⟩
  · simp [weekPriceExact, List.find?, e12, e32]
  · simp [calculatePriceChange, weekPriceExact, List.find?, e12, e32]
  · simp [getLatestPriceUpToWeek, List.filter, sortWeekDesc, insertWeekDesc, le12, le32]

/-! ### C5: zero reference price yields zero percent -/

/-- C5: when the reference price is 0, calculatePriceChange defines the percent
to be exactly 0 (the division is guarded), never NaN or infinity. -/
theorem C5_zero_reference (product : ProductWithPrices) (week : Rat)
    (h : product.reference_price = 0) :
    (calculatePriceChange product week).percent = 0 := by
  simp [calculatePriceChange, h]

/-- C5 witness at a concrete product with reference price 0 and week price 10. -/
theorem C5_zero_reference_witness :
    prodNoRef.reference_price = 0 ∧
    (calculatePriceChange prodNoRef 1).percent = 0 :=
  ⟨rfl, C5_zero_reference prodNoRef 1 rfl⟩

/-! ### C6: week-1 percent-versus-previous -/

/-- C6 counterexample: at week 1 both the card computation and the export row
expose the percent-versus-previous as the plain number 0, equal to the value a
genuine 0-percent (stable) week 2 produces, so week 1 is not exposed as a
distinguishable optional/absent value. -/
theorem C6_counterexample :
    cardPctPrev prodStable 1 = 0 ∧
    (exportRowNums prodStable 1).pctPrev = 0 ∧
    (exportRowNums prodStable 2).pctPrev = 0 := by decide

/-- C6 (amended): the numeric percent-versus-previous at week 1 is the plain
number 0 (in the export rows in particular), and only the card view layer
distinguishes week 1, rendering an em-dash placeholder instead of the formatted
0.0 percent a genuinely stable later week shows. -/
theorem C6_amended (p : ProductWithPrices) (w : Rat) (h2 : 2 ≤ w)
    (h0 : cardPctPrev p w = 0) :
    prevBadgeText p 1 = "—" ∧
    (exportRowNums p 1).pctPrev = 0 ∧
    prevBadgeText p w = "0.0%" := by
  refine ⟨rfl, ?_, ?_⟩
  · simp [exportRowNums]
  · have hw : w ≠ 1 := by intro e; rw [e] at h2; norm_num at h2
    rw [prevBadgeText, if_neg hw, h0]
    decide

/-- C6 amended witness at the stable fixture product and week 2. -/
theorem C6_amended_witness :
    (2 : Rat) ≤ 2 ∧ cardPctPrev prodStable 2 = 0 ∧
    (prevBadgeText prodStable 1 = "—" ∧
     (exportRowNums prodStable 1).pctPrev = 0 ∧
     prevBadgeText prodStable 2 = "0.0%") :=
  ⟨by decide, by decide, C6_amended prodStable 2 (by decide) (by decide)⟩

/-! ### C9: end-to-end scenario -/

/-- C9: loading the 007/Test products CSV together with the 007 weekly-prices
CSV yields exactly one product (id normalized to 7 on both sides) with reference
price 10 and a single week-1 observation of 12, whose week-1 evaluation is a 20
percent increase. -/
theorem C9_end_to_end :
    loadDataFromCSV true true csvProductsE2E csvPricesE2E = .ok [prodE2E] ∧
    (calculatePriceChange prodE2E 1).percent = 20 ∧
    getChangeCategory (calculatePriceChange prodE2E 1).percent =
      ChangeCategory.increase := by decide

/-! ### C10: latest-at-or-before lookup with no candidate -/

/-- C10: when a product has no observation at or before the queried week (an
empty price list included), getLatestPriceUpToWeek returns 0. -/
theorem C10_no_candidate (p : ProductWithPrices) (week : Rat)
    (h : ∀ x ∈ p.prices, ¬ x.week_number ≤ week) :
    getLatestPriceUpToWeek p week = 0 := by
  have hf : p.prices.filter (fun x => decide (x.week_number ≤ week)) = [] := by
    simp only [List.filter_eq_nil_iff, decide_eq_true_eq]
    exact h
  rw [getLatestPriceUpToWeek]
  by_cases he : p.prices.isEmpty
  · simp [he]
  · simp [he, hf, sortWeekDesc]

/-- C10 witness: a query at week 3 for a product first observed at week 5. -/
theorem C10_no_candidate_witness :
    (∀ x ∈ prodLateOnly.prices, ¬ x.week_number ≤ (3 : Rat)) ∧
    getLatestPriceUpToWeek prodLateOnly 3 = 0 :=
  ⟨by decide, C10_no_candidate prodLateOnly 3 (by decide)⟩

/-! ### C7: tie-breaking of the extremal reduces -/

/-- find? only looks at the predicate pointwise on the list. -/
theorem find?_congr_list {α : Type} {p q : α → Bool} {l : List α}
    (h : ∀ a ∈ l, p a = q a) : l.find? p = l.find? q := by
  induction l with
  | nil => rfl
  | cons a l ih =>
    have ha := h a (List.mem_cons_self a l)
    cases hq : q a with
    | true =>
      rw [List.find?_cons_of_pos _ (ha.trans hq), List.find?_cons_of_pos _ hq]
    | false =>
      rw [List.find?_cons_of_neg _ (by rw [ha, hq]; simp),
        List.find?_cons_of_neg _ (by rw [hq]; simp)]
      exact ih (fun x hx => h x (List.mem_cons_of_mem a hx))

/-- A reduce that replaces the accumulator only on a strict key increase returns
the first element of the seeded list attaining the maximal key. -/
theorem foldl_keep_first_max {α : Type} (key : α → Rat) (l : List α) (a : α) :
    some (l.foldl (fun m x => if key m < key x then x else m) a) =
    (a :: l).find? (fun x => decide (∀ y ∈ a :: l, key y ≤ key x)) := by
  induction l generalizing a with
  | nil =>
    have e1 : List.find? (fun z => decide (∀ y ∈ [a], key y ≤ key z)) [a] = some a :=
      List.find?_cons_of_pos _ (by
        simp only [decide_eq_true_eq]
        intro y hy
        rcases List.mem_singleton.mp hy with rfl
        exact le_refl _)
    rw [e1]
    rfl
  | cons x xs ih =>
    rw [List.foldl_cons]
    by_cases hc : key a < key x
    · rw [if_pos hc, ih x]
      have e1 : List.find? (fun z => decide (∀ y ∈ a :: x :: xs, key y ≤ key z))
          (a :: x :: xs) =
          List.find? (fun z => decide (∀ y ∈ a :: x :: xs, key y ≤ key z)) (x :: xs) :=
        List.find?_cons_of_neg _ (by
          simp only [decide_eq_true_eq, not_forall]
          exact ⟨x, ⟨List.mem_cons_of_mem a (List.mem_cons_self x xs), not_le.mpr hc⟩⟩)
      rw [e1]
      refine find?_congr_list (fun z hz => decide_eq_decide.mpr ?_)
      constructor
      · intro hall y hy
        rcases List.mem_cons.mp hy with h1 | h1
        · exact h1 ▸ le_trans hc.le (hall x (List.mem_cons_self x xs))
        · exact hall y h1
      · intro hall y hy
        exact hall y (List.mem_cons_of_mem a hy)
    · rw [if_neg hc, ih a]
      push_neg at hc
      by_cases ha : ∀ y ∈ a :: x :: xs, key y ≤ key a
      · have ha1 : ∀ y ∈ a :: xs, key y ≤ key a := by
          intro y hy
          rcases List.mem_cons.mp hy with h1 | h1
          · exact h1 ▸ le_refl _
          · exact ha y (List.mem_cons_of_mem a (List.mem_cons_of_mem x h1))
        have e1 : List.find? (fun z => decide (∀ y ∈ a :: xs, key y ≤ key z))
            (a :: xs) = some a :=
          List.find?_cons_of_pos _ (by simp only [decide_eq_true_eq]; exact ha1)
        have e2 : List.find? (fun z => decide (∀ y ∈ a :: x :: xs, key y ≤ key z))
            (a :: x :: xs) = some a :=
          List.find?_cons_of_pos _ (by simp only [decide_eq_true_eq]; exact ha)
        rw [e1, e2]
      · have ha2 : ¬ ∀ y ∈ a :: xs, key y ≤ key a := by
          intro hall
          refine ha (fun y hy => ?_)
          rcases List.mem_cons.mp hy with h1 | h1
          · exact h1 ▸ le_refl _
          · rcases List.mem_cons.mp h1 with h2 | h2
            · exact h2 ▸ hc
            · exact hall y (List.mem_cons_of_mem a h2)
        have hx : ¬ ∀ y ∈ a :: x :: xs, key y ≤ key x := by
          intro hall
          exact ha (fun y hy => le_trans (hall y hy) hc)
        have e1 : List.find? (fun z => decide (∀ y ∈ a :: xs, key y ≤ key z))
            (a :: xs) =
            List.find? (fun z => decide (∀ y ∈ a :: xs, key y ≤ key z)) xs :=
          List.find?_cons_of_neg _ (by simp only [decide_eq_true_eq]; exact ha2)
        have e2 : List.find? (fun z => decide (∀ y ∈ a :: x :: xs, key y ≤ key z))
            (a :: x :: xs) =
            List.find? (fun z => decide (∀ y ∈ a :: x :: xs, key y ≤ key z)) (x :: xs) :=
          List.find?_cons_of_neg _ (by simp only [decide_eq_true_eq]; exact ha)
        have e3 : List.find? (fun z => decide (∀ y ∈ a :: x :: xs, key y ≤ key z))
            (x :: xs) =
            List.find? (fun z => decide (∀ y ∈ a :: x :: xs, key y ≤ key z)) xs :=
          List.find?_cons_of_neg _ (by simp only [decide_eq_true_eq]; exact hx)
        rw [e1, e2, e3]
        refine find?_congr_list (fun z hz => decide_eq_decide.mpr ?_)
        constructor
        · intro hall y hy
          rcases List.mem_cons.mp hy with h1 | h1
          · exact h1 ▸ hall a (List.mem_cons_self a xs)
          · rcases List.mem_cons.mp h1 with h2 | h2
            · exact h2 ▸ le_trans hc (hall a (List.mem_cons_self a xs))
            · exact hall y (List.mem_cons_of_mem a h2)
        · intro hall y hy
          rcases List.mem_cons.mp hy with h1 | h1
          · exact h1 ▸ hall a (List.mem_cons_self a (x :: xs))
          · exact hall y (List.mem_cons_of_mem a (List.mem_cons_of_mem x h1))

/-- The seeded reduce of App (init = first element, folded over the whole list)
returns the first element attaining the maximal key. -/
theorem foldl_seeded_first_max {α : Type} (key : α → Rat) (c0 : α) (rest : List α) :
    some ((c0 :: rest).foldl (fun m x => if key m < key x then x else m) c0) =
    (c0 :: rest).find? (fun x => decide (∀ y ∈ c0 :: rest, key y ≤ key x)) := by
  rw [foldl_keep_first_max key (c0 :: rest) c0]
  have hpt : ∀ z, (decide (∀ y ∈ c0 :: c0 :: rest, key y ≤ key z)) =
      (decide (∀ y ∈ c0 :: rest, key y ≤ key z)) := by
    intro z
    refine decide_eq_decide.mpr ?_
    constructor
    · exact fun hall y hy => hall y (List.mem_cons_of_mem c0 hy)
    · intro hall y hy
      rcases List.mem_cons.mp hy with h1 | h1
      · exact h1 ▸ hall c0 (List.mem_cons_self c0 rest)
      · exact hall y h1
  by_cases h0 : ∀ y ∈ c0 :: rest, key y ≤ key c0
  · have e1 : List.find? (fun z => decide (∀ y ∈ c0 :: c0 :: rest, key y ≤ key z))
        (c0 :: c0 :: rest) = some c0 :=
      List.find?_cons_of_pos _ (by rw [hpt c0]; simp only [decide_eq_true_eq]; exact h0)
    have e2 : List.find? (fun z => decide (∀ y ∈ c0 :: rest, key y ≤ key z))
        (c0 :: rest) = some c0 :=
      List.find?_cons_of_pos _ (by simp only [decide_eq_true_eq]; exact h0)
    rw [e1, e2]
  · have e1 : List.find? (fun z => decide (∀ y ∈ c0 :: c0 :: rest, key y ≤ key z))
        (c0 :: c0 :: rest) =
        List.find? (fun z => decide (∀ y ∈ c0 :: c0 :: rest, key y ≤ key z))
          (c0 :: rest) :=
      List.find?_cons_of_neg _ (by rw [hpt c0]; simp only [decide_eq_true_eq]; exact h0)
    rw [e1]
    exact find?_congr_list (fun z hz => hpt z)

/-- C7: over any nonempty product collection at any week, maxIncrease is the
first PriceChange in input order attaining the maximal percent (an earlier entry
is kept on ties), and maxDecrease symmetrically is the first entry attaining the
minimal percent; both are pure functions of the input, hence stable across
repeated evaluations. -/
theorem C7_first_tie_wins (products : List ProductWithPrices) (week : Rat)
    (h : products ≠ []) :
    maxIncrease (products.map (fun p => calculatePriceChange p week)) =
      (products.map (fun p => calculatePriceChange p week)).find? (fun x =>
        decide (∀ y ∈ products.map (fun p => calculatePriceChange p week),
          y.percent ≤ x.percent)) ∧
    maxDecrease (products.map (fun p => calculatePriceChange p week)) =
      (products.map (fun p => calculatePriceChange p week)).find? (fun x =>
        decide (∀ y ∈ products.map (fun p => calculatePriceChange p week),
          x.percent ≤ y.percent)) := by
  cases hl : products.map (fun p => calculatePriceChange p week) with
  | nil => exact absurd (List.map_eq_nil_iff.mp hl) h
  | cons c0 rest =>
    constructor
    · rw [maxIncrease]
      exact foldl_seeded_first_max PriceChange.percent c0 rest
    · rw [maxDecrease]
      have hfun : (fun (m x : PriceChange) => if x.percent < m.percent then x else m) =
          (fun m x => if (-(m.percent)) < (-(x.percent)) then x else m) := by
        funext m x
        rcases lt_or_ge x.percent m.percent with h1 | h1
        · rw [if_pos h1, if_pos (neg_lt_neg_iff.mpr h1)]
        · rw [if_neg (not_lt.mpr h1), if_neg (not_lt.mpr (neg_le_neg h1))]
      rw [hfun, foldl_seeded_first_max (fun c => -(c.percent)) c0 rest]
      exact find?_congr_list (fun z hz => decide_eq_decide.mpr
        ⟨fun hall y hy => neg_le_neg_iff.mp (hall y hy),
         fun hall y hy => neg_le_neg_iff.mpr (hall y hy)⟩)

/-- C7 witness: two products tied at the maximal percent (and at the minimal
percent) - the reduces return the first of the tied entries in input order. -/
theorem C7_first_tie_wins_witness :
    ([prodAdherent, prodStable] : List ProductWithPrices) ≠ [] ∧
    (maxIncrease ([prodAdherent, prodStable].map (fun p => calculatePriceChange p 1)) =
      ([prodAdherent, prodStable].map (fun p => calculatePriceChange p 1)).find? (fun x =>
        decide (∀ y ∈ [prodAdherent, prodStable].map (fun p => calculatePriceChange p 1),
          y.percent ≤ x.percent)) ∧
     maxDecrease ([prodAdherent, prodStable].map (fun p => calculatePriceChange p 1)) =
      ([prodAdherent, prodStable].map (fun p => calculatePriceChange p 1)).find? (fun x =>
        decide (∀ y ∈ [prodAdherent, prodStable].map (fun p => calculatePriceChange p 1),
          x.percent ≤ y.percent))) :=
  ⟨by decide, C7_first_tie_wins [prodAdherent, prodStable] 1 (by decide)⟩

/-! ### C4: type coercion of parsed fields -/

/-- All characters of the list are decimal digits. -/
@[reducible] def DigitsOnly (l : List Char) : Prop := ∀ c ∈ l, c.isDigit = true

/-- Declarative reading of the leading-zero-code regex: a zero followed by at
least one more character, every character a digit. -/
def CodeShape (l : List Char) : Prop :=
  (∃ c cs, l = '0' :: c :: cs) ∧ DigitsOnly l

/-- Declarative reading of the plain-decimal regex: an optional minus sign, a
nonempty run of digits, and an optional dot followed by a nonempty run of
digits. -/
def NumShape (l : List Char) : Prop :=
  ∃ sgn ip fp, (sgn = ([] : List Char) ∨ sgn = ['-']) ∧ ip ≠ [] ∧ DigitsOnly ip ∧
    (fp = [] ∨ ∃ fd, fd ≠ [] ∧ DigitsOnly fd ∧ fp = '.' :: fd) ∧
    l = sgn ++ ip ++ fp

/-- looksLikeCode on a cons, written without pattern matching. -/
theorem looksLikeCode_cons (c : Char) (rest : List Char) :
    looksLikeCode (c :: rest) =
      (decide (c = '0') && (!rest.isEmpty && rest.all Char.isDigit)) := by
  by_cases hc : c = '0'
  · subst hc; simp [looksLikeCode]
  · unfold looksLikeCode
    split
    · next heq =>
      exfalso
      rw [List.cons.injEq] at heq
      exact hc heq.1
    · simp [hc]

/-- The leading-zero-code matcher agrees with its declarative reading. -/
theorem looksLikeCode_iff (l : List Char) : looksLikeCode l = true ↔ CodeShape l := by
  rcases l with _ | ⟨c, rest⟩
  · constructor
    · intro h; simp [looksLikeCode] at h
    · rintro ⟨⟨c, cs, h⟩, -⟩; exact absurd h (by simp)
  · rw [looksLikeCode_cons]
    constructor
    · intro h
      simp only [Bool.and_eq_true, decide_eq_true_eq, Bool.not_eq_true',
        List.isEmpty_eq_false, List.all_eq_true] at h
      obtain ⟨rfl, hne, hdig⟩ := h
      rcases rest with _ | ⟨d, ds⟩
      · exact absurd rfl hne
      · refine ⟨⟨d, ds, rfl⟩, ?_⟩
        intro x hx
        rcases List.mem_cons.mp hx with h1 | h1
        · subst h1; decide
        · exact hdig x h1
    · rintro ⟨⟨d, ds, heq⟩, hdig⟩
      rw [List.cons.injEq] at heq
      obtain ⟨rfl, rfl⟩ := heq
      have h1 : (d :: ds).all Char.isDigit = true :=
        List.all_eq_true.mpr (fun x hx => hdig x (List.mem_cons_of_mem _ hx))
      simp [h1]

/-- Declarative reading of the unsigned part of the plain-decimal regex. -/
def BodyShape (l : List Char) : Prop :=
  ∃ ip fp, ip ≠ [] ∧ DigitsOnly ip ∧
    (fp = [] ∨ ∃ fd, fd ≠ [] ∧ DigitsOnly fd ∧ fp = '.' :: fd) ∧ l = ip ++ fp

/-- takeWhile and dropWhile split a digit run followed by a dot-headed (or
empty) remainder exactly at the boundary. -/
theorem takeWhile_digits_append (ip fp : List Char) (hip : DigitsOnly ip)
    (hfp : fp = [] ∨ ∃ t, fp = '.' :: t) :
    (ip ++ fp).takeWhile Char.isDigit = ip ∧
    (ip ++ fp).dropWhile Char.isDigit = fp := by
  induction ip with
  | nil =>
    rcases hfp with rfl | ⟨t, rfl⟩
    · simp
    · have hdot : Char.isDigit '.' = false := by decide
      constructor
      · simp [List.takeWhile_cons, hdot]
      · simp [List.dropWhile_cons, hdot]
  | cons c cs ih =>
    have hc : c.isDigit = true := hip c (List.mem_cons_self c cs)
    have hcs : DigitsOnly cs := fun x hx => hip x (List.mem_cons_of_mem c hx)
    obtain ⟨h1, h2⟩ := ih hcs
    constructor
    · simp [List.takeWhile_cons, hc, h1]
    · simp [List.dropWhile_cons, hc, h2]

/-- The unsigned-decimal matcher agrees with its declarative reading. -/
theorem numericBody_iff (l : List Char) : numericBody l = true ↔ BodyShape l := by
  constructor
  · intro h
    simp only [numericBody, Bool.and_eq_true, Bool.not_eq_true',
      List.isEmpty_eq_false] at h
    obtain ⟨hne, hrest⟩ := h
    refine ⟨l.takeWhile Char.isDigit, l.dropWhile Char.isDigit, hne,
      (fun x hx => List.mem_takeWhile_imp hx), ?_,
      (List.takeWhile_append_dropWhile Char.isDigit l).symm⟩
    split at hrest
    · next heq => exact Or.inl heq
    · next fs heq =>
      simp only [Bool.and_eq_true, Bool.not_eq_true', List.isEmpty_eq_false,
        List.all_eq_true] at hrest
      exact Or.inr ⟨fs, hrest.1, fun x hx => hrest.2 x hx, heq⟩
    · next => exact absurd hrest (by simp)
  · rintro ⟨ip, fp, hne, hdig, hfp, rfl⟩
    have hsplit := takeWhile_digits_append ip fp hdig
      (by rcases hfp with rfl | ⟨fd, -, -, rfl⟩; exacts [Or.inl rfl, Or.inr ⟨fd, rfl⟩])
    simp only [numericBody, hsplit.1, hsplit.2, Bool.and_eq_true, Bool.not_eq_true',
      List.isEmpty_eq_false]
    refine ⟨hne, ?_⟩
    rcases hfp with rfl | ⟨fd, hfdne, hfddig, rfl⟩
    · rfl
    · simp only [Bool.and_eq_true, Bool.not_eq_true', List.isEmpty_eq_false,
        List.all_eq_true]
      exact ⟨hfdne, fun x hx => hfddig x hx⟩

/-- looksNumeric on a cons, written without pattern matching. -/
theorem looksNumeric_cons (c : Char) (rest : List Char) :
    looksNumeric (c :: rest) =
      (if c = '-' then numericBody rest else numericBody (c :: rest)) := by
  by_cases hc : c = '-'
  · subst hc; simp [looksNumeric]
  · rw [if_neg hc]
    unfold looksNumeric
    split
    · next heq =>
      exfalso
      rw [List.cons.injEq] at heq
      exact hc heq.1
    · rfl

/-- The signed-decimal matcher agrees with its declarative reading. -/
theorem looksNumeric_iff (l : List Char) : looksNumeric l = true ↔ NumShape l := by
  have hminus : Char.isDigit '-' = false := by decide
  rcases l with _ | ⟨c, rest⟩
  · constructor
    · intro h
      simp [looksNumeric, numericBody] at h
    · rintro ⟨sgn, ip, fp, hsgn, hne, -, -, heq⟩
      rcases hsgn with rfl | rfl
      · simp only [List.nil_append] at heq
        exact (hne (List.append_eq_nil.mp heq.symm).1).elim
      · exact absurd heq (by simp)
  · rw [looksNumeric_cons]
    by_cases hc : c = '-'
    · subst hc
      rw [if_pos rfl]
      constructor
      · intro h
        obtain ⟨ip, fp, hne, hdig, hfp, rfl⟩ := (numericBody_iff rest).mp h
        exact ⟨['-'], ip, fp, Or.inr rfl, hne, hdig, hfp, rfl⟩
      · rintro ⟨sgn, ip, fp, hsgn, hne, hdig, hfp, heq⟩
        rcases hsgn with rfl | rfl
        · exfalso
          simp only [List.nil_append] at heq
          rcases ip with _ | ⟨d, ds⟩
          · exact hne rfl
          · simp only [List.cons_append, List.cons.injEq] at heq
            have hd := hdig d (List.mem_cons_self d ds)
            rw [← heq.1, hminus] at hd
            exact absurd hd (by simp)
        · simp only [List.cons_append, List.nil_append, List.cons.injEq,
            true_and] at heq
          exact (numericBody_iff rest).mpr ⟨ip, fp, hne, hdig, hfp, heq⟩
    · rw [if_neg hc]
      constructor
      · intro h
        obtain ⟨ip, fp, hne, hdig, hfp, heq⟩ := (numericBody_iff (c :: rest)).mp h
        exact ⟨[], ip, fp, Or.inl rfl, hne, hdig, hfp, by
          simp only [List.nil_append]; exact heq⟩
      · rintro ⟨sgn, ip, fp, hsgn, hne, hdig, hfp, heq⟩
        rcases hsgn with rfl | rfl
        · simp only [List.nil_append] at heq
          exact (numericBody_iff (c :: rest)).mpr ⟨ip, fp, hne, hdig, hfp, heq⟩
        · exfalso
          simp only [List.cons_append, List.nil_append, List.cons.injEq] at heq
          exact hc heq.1

/-- C4: coercion of a parsed field value: a leading-zero code stays exactly that
string, an optionally-signed plain decimal becomes the corresponding number, the
empty value stays the empty string, and anything else stays a string. -/
theorem C4_coercion (s : String) :
    (s = "" → coerceCell s.data = .str "") ∧
    (s ≠ "" → CodeShape s.data → coerceCell s.data = .str s) ∧
    (s ≠ "" → NumShape s.data → ¬ CodeShape s.data →
      coerceCell s.data = .num (decValue s.data)) ∧
    (s ≠ "" → ¬ CodeShape s.data → ¬ NumShape s.data → coerceCell s.data = .str s) := by
  have hmk : String.mk s.data = s := rfl
  have hne : s ≠ "" → s.data.isEmpty = false := by
    intro h
    rcases hd : s.data with _ | ⟨c, cs⟩
    · exact absurd (String.ext hd) h
    · rfl
  refine ⟨?_, ?_, ?_, ?_⟩
  · rintro rfl; rfl
  · intro h hcode
    have hc := (looksLikeCode_iff s.data).mpr hcode
    simp [coerceCell, hne h, hc, hmk]
  · intro h hnum hncode
    have hn := (looksNumeric_iff s.data).mpr hnum
    have hc : looksLikeCode s.data = false := by
      rcases hcv : looksLikeCode s.data with _ | _
      · rfl
      · exact absurd ((looksLikeCode_iff s.data).mp hcv) hncode
    simp [coerceCell, hne h, hc, hn]
  · intro h hncode hnnum
    have hc : looksLikeCode s.data = false := by
      rcases hcv : looksLikeCode s.data with _ | _
      · rfl
      · exact absurd ((looksLikeCode_iff s.data).mp hcv) hncode
    have hn : looksNumeric s.data = false := by
      rcases hnv : looksNumeric s.data with _ | _
      · rfl
      · exact absurd ((looksNumeric_iff s.data).mp hnv) hnnum
    simp [coerceCell, hne h, hc, hn, hmk]

/-- C4 witness: the claim's example values - leading-zero codes stay strings,
plain decimals become the corresponding numbers, the empty value stays empty. -/
theorem C4_coercion_witness :
    coerceCell "0123".data = Cell.str "0123" ∧
    coerceCell "011100103".data = Cell.str "011100103" ∧
    coerceCell "123.45".data = Cell.num (12345 / 100) ∧
    coerceCell "-5".data = Cell.num (-5) ∧
    coerceCell "".data = Cell.str "" := by
  refine ⟨(C4_coercion "0123").2.1 (by decide) ⟨⟨'1', ['2', '3'], by decide⟩, by decide⟩,
    (C4_coercion "011100103").2.1 (by decide)
      ⟨⟨'1', ['1', '1', '0', '0', '1', '0', '3'], by decide⟩, by decide⟩,
    ?_, ?_, (C4_coercion "").1 rfl⟩
  · have h := (C4_coercion "123.45").2.2.1 (by decide)
      ⟨[], ['1', '2', '3'], ['.', '4', '5'], Or.inl rfl, by decide, by decide,
        Or.inr ⟨['4', '5'], by decide, by decide, by decide⟩, by decide⟩
      (fun hc => absurd ((looksLikeCode_iff _).mpr hc) (by decide))
    rw [h]; decide
  · have h := (C4_coercion "-5").2.2.1 (by decide)
      ⟨['-'], ['5'], [], Or.inr rfl, by decide, by decide, Or.inl rfl, by decide⟩
      (fun hc => absurd ((looksLikeCode_iff _).mpr hc) (by decide))
    rw [h]; decide


/-! ### C8: CSV round-trip -/

/-- The field survives the trim that parseCSV applies to every cell. -/
@[reducible] def TrimStable (s : String) : Prop := jsTrim s.data = s.data

/-- The field contains no carriage return (newline normalization rewrites those). -/
@[reducible] def NoCR (s : String) : Prop := '\r' ∉ s.data

/-- The coercion keeps the field as exactly this string (it is not a plain
numeric literal). -/
@[reducible] def KeptAsString (s : String) : Prop := coerceCell s.data = Cell.str s

theorem csvScan_nil (inQ : Bool) (field : List Char) (curRow : List (List Char))
    (rows : List (List (List Char))) :
    csvScan inQ field curRow rows [] = pushRowF (curRow ++ [field]) rows := by
  cases inQ <;> rfl

theorem csvScan_esc (field : List Char) (curRow : List (List Char))
    (rows : List (List (List Char))) (rest : List Char) :
    csvScan true field curRow rows ('"' :: '"' :: rest) =
      csvScan true (field ++ ['"']) curRow rows rest := rfl

theorem csvScan_open (field : List Char) (curRow : List (List Char))
    (rows : List (List (List Char))) (rest : List Char) :
    csvScan false field curRow rows ('"' :: rest) =
      csvScan true field curRow rows rest := rfl

theorem csvScan_comma (field : List Char) (curRow : List (List Char))
    (rows : List (List (List Char))) (rest : List Char) :
    csvScan false field curRow rows (',' :: rest) =
      csvScan false [] (curRow ++ [field]) rows rest := rfl

theorem csvScan_newline (field : List Char) (curRow : List (List Char))
    (rows : List (List (List Char))) (rest : List Char) :
    csvScan false field curRow rows ('\n' :: rest) =
      csvScan false [] [] (pushRowF (curRow ++ [field]) rows) rest := rfl

theorem csvScan_close (field : List Char) (curRow : List (List Char))
    (rows : List (List (List Char))) (rest : List Char) (h : rest.head? ≠ some '"') :
    csvScan true field curRow rows ('"' :: rest) =
      csvScan false field curRow rows rest := by
  rcases rest with _ | ⟨c, rest2⟩
  · rfl
  · have hc : c ≠ '"' := by intro e; subst e; exact h rfl
    simp [csvScan, hc]

theorem csvScan_inQ_char (field : List Char) (curRow : List (List Char))
    (rows : List (List (List Char))) (c : Char) (rest : List Char) (h : c ≠ '"') :
    csvScan true field curRow rows (c :: rest) =
      csvScan true (field ++ [c]) curRow rows rest := by
  simp [csvScan, h]

theorem escapeQuotes_cons (c : Char) (cs : List Char) :
    escapeQuotes (c :: cs) =
      (if c = '"' then ['"', '"'] else [c]) ++ escapeQuotes cs := rfl

theorem scan_quoted_field (f : List Char) :
    ∀ (field : List Char) (curRow : List (List Char))
      (rows : List (List (List Char))) (rest : List Char),
      rest.head? ≠ some '"' →
      csvScan true field curRow rows (escapeQuotes f ++ '"' :: rest) =
        csvScan false (field ++ f) curRow rows rest := by
  induction f with
  | nil =>
    intro field curRow rows rest h
    rw [show escapeQuotes [] = [] from rfl, List.nil_append, csvScan_close _ _ _ _ h,
      List.append_nil]
  | cons c cs ih =>
    intro field curRow rows rest h
    by_cases hc : c = '"'
    · subst hc
      rw [escapeQuotes_cons, if_pos rfl]
      rw [show (['"', '"'] ++ escapeQuotes cs) ++ '"' :: rest =
        '"' :: '"' :: (escapeQuotes cs ++ '"' :: rest) from by simp]
      rw [csvScan_esc, ih _ _ _ _ h]
      simp
    · rw [escapeQuotes_cons, if_neg hc]
      rw [show ([c] ++ escapeQuotes cs) ++ '"' :: rest =
        c :: (escapeQuotes cs ++ '"' :: rest) from by simp]
      rw [csvScan_inQ_char _ _ _ _ _ hc, ih _ _ _ _ h]
      simp

theorem scan_quoted_open (f : String) (field : List Char) (curRow : List (List Char))
    (rows : List (List (List Char))) (rest : List Char) (h : rest.head? ≠ some '"') :
    csvScan false field curRow rows (quoteField f ++ rest) =
      csvScan false (field ++ f.data) curRow rows rest := by
  rw [show quoteField f ++ rest = '"' :: (escapeQuotes f.data ++ '"' :: rest) from by
    simp [quoteField]]
  rw [csvScan_open, scan_quoted_field _ _ _ _ _ h]

theorem serializeRow_singleton (f : String) : serializeRow [f] = quoteField f := by
  simp [serializeRow, List.intercalate, List.intersperse]

theorem serializeRow_cons (f : String) (g : String) (fs : List String) :
    serializeRow (f :: g :: fs) = quoteField f ++ ',' :: serializeRow (g :: fs) := by
  simp [serializeRow, List.intercalate, List.intersperse]

theorem scan_row (fs : List String) (f : String) :
    ∀ (curRow : List (List Char)) (rows : List (List (List Char))) (rest : List Char),
      rest.head? ≠ some '"' →
      csvScan false [] curRow rows (serializeRow (fs ++ [f]) ++ rest) =
        csvScan false f.data (curRow ++ fs.map String.data) rows rest := by
  induction fs with
  | nil =>
    intro curRow rows rest h
    rw [List.nil_append, serializeRow_singleton, scan_quoted_open _ _ _ _ _ h]
    simp
  | cons f1 fs1 ih =>
    intro curRow rows rest h
    rw [show ((f1 :: fs1) ++ [f]) = f1 :: (fs1 ++ [f]) from rfl]
    rw [show serializeRow (f1 :: (fs1 ++ [f])) =
      quoteField f1 ++ ',' :: serializeRow (fs1 ++ [f]) from by
        rcases fs1 with _ | ⟨f2, fs2⟩
        · rw [List.nil_append, serializeRow_cons]
        · rw [show ((f2 :: fs2) ++ [f]) = f2 :: (fs2 ++ [f]) from rfl, serializeRow_cons]]
    rw [show (quoteField f1 ++ ',' :: serializeRow (fs1 ++ [f])) ++ rest =
      quoteField f1 ++ (',' :: (serializeRow (fs1 ++ [f]) ++ rest)) from by simp]
    rw [scan_quoted_open _ _ _ _ _ (by simp), List.nil_append, csvScan_comma]
    rw [ih _ _ _ h]
    simp

theorem serializeTableChars_singleton (r : List String) :
    serializeTableChars [r] = serializeRow r := by
  simp [serializeTableChars, List.intercalate, List.intersperse]

theorem serializeTableChars_cons (r1 r2 : List String) (rs : List (List String)) :
    serializeTableChars (r1 :: r2 :: rs) =
      serializeRow r1 ++ '\n' :: serializeTableChars (r2 :: rs) := by
  simp [serializeTableChars, List.intercalate, List.intersperse]

theorem scan_table (rs : List (List String)) :
    ∀ (r : List String) (rows : List (List (List Char))),
      (∀ q ∈ rs, q ≠ []) → r ≠ [] →
      csvScan false [] [] rows (serializeTableChars (rs ++ [r])) =
        ((rs ++ [r]).map (fun q => q.map String.data)).foldl
          (fun acc row => pushRowF row acc) rows := by
  induction rs with
  | nil =>
    intro r rows hq hr
    obtain ⟨fs, f, rfl⟩ : ∃ fs f, r = fs ++ [f] := by
      rcases List.eq_nil_or_concat r with h | ⟨fs, f, h⟩
      · exact absurd h hr
      · exact ⟨fs, f, by rw [h, List.concat_eq_append]⟩
    rw [List.nil_append, serializeTableChars_singleton]
    rw [show serializeRow (fs ++ [f]) = serializeRow (fs ++ [f]) ++ [] from
      (List.append_nil _).symm]
    rw [scan_row _ _ _ _ _ (by simp), csvScan_nil]
    simp
  | cons r1 rs1 ih =>
    intro r rows hq hr
    have hr1 : r1 ≠ [] := hq r1 (List.mem_cons_self r1 rs1)
    obtain ⟨fs, f, rfl⟩ : ∃ fs f, r1 = fs ++ [f] := by
      rcases List.eq_nil_or_concat r1 with h | ⟨fs, f, h⟩
      · exact absurd h hr1
      · exact ⟨fs, f, by rw [h, List.concat_eq_append]⟩
    rw [List.cons_append]
    rw [show serializeTableChars ((fs ++ [f]) :: (rs1 ++ [r])) =
      serializeRow (fs ++ [f]) ++ '\n' :: serializeTableChars (rs1 ++ [r]) from by
        rcases hx : rs1 ++ [r] with _ | ⟨x, xs⟩
        · exact absurd hx (by simp)
        · rw [serializeTableChars_cons]]
    rw [show serializeRow (fs ++ [f]) ++ '\n' :: serializeTableChars (rs1 ++ [r]) =
      serializeRow (fs ++ [f]) ++ ('\n' :: serializeTableChars (rs1 ++ [r])) from rfl]
    rw [scan_row _ _ _ _ _ (by simp), csvScan_newline]
    rw [ih _ _ (fun q hqin => hq q (List.mem_cons_of_mem _ hqin)) hr]
    simp

theorem foldl_pushRowF_all (tbl : List (List (List Char))) :
    ∀ rows0, (∀ row ∈ tbl, row.any (fun v => !(jsTrim v).isEmpty) = true) →
      tbl.foldl (fun acc row => pushRowF row acc) rows0 = rows0 ++ tbl := by
  induction tbl with
  | nil => intro rows0 _; simp
  | cons t ts ih =>
    intro rows0 h
    rw [List.foldl_cons, show pushRowF t rows0 = rows0 ++ [t] from by
      simp [pushRowF, h t (List.mem_cons_self t ts)]]
    rw [ih _ (fun row hr => h row (List.mem_cons_of_mem t hr))]
    simp

theorem normNL_cons_of_ne (c : Char) (rest : List Char) (h : c ≠ '\r') :
    normNL (c :: rest) = c :: normNL rest := by
  rcases rest with _ | ⟨d, ds⟩ <;> simp [normNL, h]

theorem normNL_id (l : List Char) (h : '\r' ∉ l) : normNL l = l := by
  induction l with
  | nil => rfl
  | cons c cs ih =>
    have hc : c ≠ '\r' := fun e => h (e ▸ List.mem_cons_self c cs)
    rw [normNL_cons_of_ne _ _ hc, ih (fun hm => h (List.mem_cons_of_mem c hm))]

theorem jsTrim_id (l : List Char)
    (h1 : ∀ c, l.head? = some c → c.isWhitespace = false)
    (h2 : ∀ c, l.getLast? = some c → c.isWhitespace = false) :
    jsTrim l = l := by
  rcases l with _ | ⟨a, m⟩
  · rfl
  · rw [jsTrim, List.dropWhile_cons]
    rw [if_neg (by simp [h1 a rfl])]
    rcases hrev : (a :: m).reverse with _ | ⟨b, k⟩
    · exact absurd hrev (by simp)
    · have hb : b.isWhitespace = false := by
        refine h2 b ?_
        rw [← List.head?_reverse, hrev]
        rfl
      rw [List.dropWhile_cons, if_neg (by simp [hb])]
      have h3 := congrArg List.reverse hrev
      rw [List.reverse_reverse] at h3
      exact h3.symm

theorem mem_escapeQuotes (c : Char) (l : List Char) (h : c ∈ escapeQuotes l) :
    c ∈ l := by
  induction l with
  | nil => exact absurd h (by simp [escapeQuotes])
  | cons d ds ih =>
    rw [escapeQuotes_cons] at h
    rcases List.mem_append.mp h with h1 | h1
    · have hcd : c = d := by
        by_cases hd : d = '"'
        · subst hd; rw [if_pos rfl] at h1; simpa using h1
        · rw [if_neg hd] at h1; simpa using h1
      exact hcd ▸ List.mem_cons_self d ds
    · exact List.mem_cons_of_mem d (ih h1)

theorem mem_quoteField (c : Char) (f : String) (h : c ∈ quoteField f) :
    c = '"' ∨ c ∈ f.data := by
  rw [quoteField] at h
  rcases List.mem_cons.mp h with h1 | h1
  · exact Or.inl h1
  · rcases List.mem_append.mp h1 with h2 | h2
    · exact Or.inr (mem_escapeQuotes c f.data h2)
    · exact Or.inl (by simpa using h2)

theorem mem_serializeRow (c : Char) (r : List String) (h : c ∈ serializeRow r) :
    c = '"' ∨ c = ',' ∨ ∃ f ∈ r, c ∈ f.data := by
  induction r with
  | nil => exact absurd h (by simp [serializeRow, List.intercalate, List.intersperse])
  | cons f fs ih =>
    rcases fs with _ | ⟨g, gs⟩
    · rw [serializeRow_singleton] at h
      rcases mem_quoteField c f h with h1 | h1
      · exact Or.inl h1
      · exact Or.inr (Or.inr ⟨f, List.mem_cons_self f [], h1⟩)
    · rw [serializeRow_cons] at h
      rcases List.mem_append.mp h with h1 | h1
      · rcases mem_quoteField c f h1 with h2 | h2
        · exact Or.inl h2
        · exact Or.inr (Or.inr ⟨f, List.mem_cons_self f (g :: gs), h2⟩)
      · rcases List.mem_cons.mp h1 with h2 | h2
        · exact Or.inr (Or.inl h2)
        · rcases ih h2 with h3 | h3 | ⟨f2, hf2, h3⟩
          · exact Or.inl h3
          · exact Or.inr (Or.inl h3)
          · exact Or.inr (Or.inr ⟨f2, List.mem_cons_of_mem f hf2, h3⟩)

theorem mem_serializeTableChars (c : Char) (t : List (List String))
    (h : c ∈ serializeTableChars t) :
    c = '"' ∨ c = ',' ∨ c = '\n' ∨ ∃ r ∈ t, ∃ f ∈ r, c ∈ f.data := by
  induction t with
  | nil =>
    exact absurd h (by simp [serializeTableChars, List.intercalate, List.intersperse])
  | cons r rs ih =>
    rcases rs with _ | ⟨r2, rs2⟩
    · rw [serializeTableChars_singleton] at h
      rcases mem_serializeRow c r h with h1 | h1 | ⟨f, hf, h1⟩
      · exact Or.inl h1
      · exact Or.inr (Or.inl h1)
      · exact Or.inr (Or.inr (Or.inr ⟨r, List.mem_cons_self r [], f, hf, h1⟩))
    · rw [serializeTableChars_cons] at h
      rcases List.mem_append.mp h with h1 | h1
      · rcases mem_serializeRow c r h1 with h2 | h2 | ⟨f, hf, h2⟩
        · exact Or.inl h2
        · exact Or.inr (Or.inl h2)
        · exact Or.inr (Or.inr (Or.inr ⟨r, List.mem_cons_self r (r2 :: rs2), f, hf, h2⟩))
      · rcases List.mem_cons.mp h1 with h2 | h2
        · exact Or.inr (Or.inr (Or.inl h2))
        · rcases ih h2 with h3 | h3 | h3 | ⟨r3, hr3, f, hf, h3⟩
          · exact Or.inl h3
          · exact Or.inr (Or.inl h3)
          · exact Or.inr (Or.inr (Or.inl h3))
          · exact Or.inr (Or.inr (Or.inr ⟨r3, List.mem_cons_of_mem r hr3, f, hf, h3⟩))

theorem serializeRow_head (f : String) (fs : List String) :
    (serializeRow (f :: fs)).head? = some '"' := by
  rcases fs with _ | ⟨g, gs⟩
  · rw [serializeRow_singleton]; rfl
  · rw [serializeRow_cons]; rfl

theorem serializeTableChars_head (r : List String) (t : List (List String))
    (hr : r ≠ []) :
    (serializeTableChars (r :: t)).head? = some '"' := by
  obtain ⟨f, fs, rfl⟩ : ∃ f fs, r = f :: fs := by
    rcases r with _ | ⟨f, fs⟩
    · exact absurd rfl hr
    · exact ⟨f, fs, rfl⟩
  rcases t with _ | ⟨t1, ts⟩
  · rw [serializeTableChars_singleton]; exact serializeRow_head f fs
  · rw [serializeTableChars_cons]
    have hh := serializeRow_head f fs
    rcases hsr : serializeRow (f :: fs) with _ | ⟨x, xs⟩
    · rw [hsr] at hh; exact absurd hh (by simp)
    · rw [hsr] at hh
      have hx : x = '"' := by simpa using hh
      subst hx
      rfl

theorem quoteField_getLast (f : String) : (quoteField f).getLast? = some '"' := by
  rw [show quoteField f = ('"' :: escapeQuotes f.data) ++ ['"'] from by
    simp [quoteField]]
  exact List.getLast?_concat _

theorem serializeRow_getLast (fs : List String) (f : String) :
    (serializeRow (fs ++ [f])).getLast? = some '"' := by
  induction fs with
  | nil => rw [List.nil_append, serializeRow_singleton]; exact quoteField_getLast f
  | cons f1 fs1 ih =>
    rw [show ((f1 :: fs1) ++ [f]) = f1 :: (fs1 ++ [f]) from rfl]
    rw [show serializeRow (f1 :: (fs1 ++ [f])) =
      quoteField f1 ++ ',' :: serializeRow (fs1 ++ [f]) from by
        rcases fs1 with _ | ⟨f2, fs2⟩
        · rw [List.nil_append, serializeRow_cons]
        · rw [show ((f2 :: fs2) ++ [f]) = f2 :: (fs2 ++ [f]) from rfl, serializeRow_cons]]
    have hne : (',' :: serializeRow (fs1 ++ [f])) ≠ [] := by simp
    rw [List.getLast?_append_of_ne_nil _ hne]
    have hne2 : serializeRow (fs1 ++ [f]) ≠ [] := by
      intro e
      rw [e] at ih
      exact absurd ih (by simp)
    rw [show (',' :: serializeRow (fs1 ++ [f])) = [','] ++ serializeRow (fs1 ++ [f]) from rfl]
    rw [List.getLast?_append_of_ne_nil _ hne2]
    exact ih

theorem serializeTableChars_getLast (rs : List (List String)) (r : List String)
    (hr : (serializeRow r).getLast? = some '"') :
    (serializeTableChars (rs ++ [r])).getLast? = some '"' := by
  induction rs with
  | nil => rw [List.nil_append, serializeTableChars_singleton]; exact hr
  | cons r1 rs1 ih =>
    rw [List.cons_append]
    rw [show serializeTableChars (r1 :: (rs1 ++ [r])) =
      serializeRow r1 ++ '\n' :: serializeTableChars (rs1 ++ [r]) from by
        rcases hx : rs1 ++ [r] with _ | ⟨x, xs⟩
        · exact absurd hx (by simp)
        · rw [serializeTableChars_cons]]
    have hne : ('\n' :: serializeTableChars (rs1 ++ [r])) ≠ [] := by simp
    rw [List.getLast?_append_of_ne_nil _ hne]
    have hne2 : serializeTableChars (rs1 ++ [r]) ≠ [] := by
      intro e
      rw [e] at ih
      exact absurd ih (by simp)
    rw [show ('\n' :: serializeTableChars (rs1 ++ [r])) =
      ['\n'] ++ serializeTableChars (rs1 ++ [r]) from rfl]
    rw [List.getLast?_append_of_ne_nil _ hne2]
    exact ih

theorem objSet_of_not_mem (obj : List (String × Cell)) (k : String) (v : Cell)
    (h : ∀ p ∈ obj, p.1 ≠ k) : objSet obj k v = obj ++ [(k, v)] := by
  rw [objSet, if_neg]
  intro hc
  obtain ⟨p, hp, he⟩ := List.any_eq_true.mp hc
  exact h p hp (of_decide_eq_true he)

theorem buildObj_zip (hs : List String) :
    ∀ (vs : List (List Char)) (obj : List (String × Cell)),
      hs.Nodup → (∀ q ∈ hs, ∀ p ∈ obj, p.1 ≠ q) → vs.length = hs.length →
      buildObj obj hs vs =
        obj ++ hs.zip (vs.map (fun v => coerceCell (jsTrim v))) := by
  induction hs with
  | nil => intro vs obj _ _ _; simp [buildObj]
  | cons h0 hs1 ih =>
    intro vs obj hnd hdisj hlen
    rcases vs with _ | ⟨v, vs1⟩
    · exact absurd hlen (by simp)
    · rw [show buildObj obj (h0 :: hs1) (v :: vs1) =
        buildObj (objSet obj h0 (coerceCell (jsTrim v))) hs1 vs1 from rfl]
      rw [objSet_of_not_mem _ _ _ (hdisj h0 (List.mem_cons_self h0 hs1))]
      rw [ih vs1 (obj ++ [(h0, coerceCell (jsTrim v))]) (List.Nodup.of_cons hnd)
        (fun q hq p hp => by
          rcases List.mem_append.mp hp with h1 | h1
          · exact hdisj q (List.mem_cons_of_mem h0 hq) p h1
          · have : p = (h0, coerceCell (jsTrim v)) := by simpa using h1
            rw [this]
            intro e
            have e2 : h0 = q := e
            subst e2
            exact (List.nodup_cons.mp hnd).1 hq)
        (by simpa using hlen)]
      simp

theorem buildObj_record (headers : List String) (r : List String)
    (hnd : headers.Nodup) (hlen : r.length = headers.length)
    (hfok : ∀ f ∈ r, TrimStable f ∧ KeptAsString f) :
    buildObj [] headers (r.map String.data) = headers.zip (r.map Cell.str) := by
  rw [buildObj_zip headers (r.map String.data) [] hnd (by simp) (by simpa using hlen)]
  rw [List.nil_append, List.map_map]
  congr 1
  refine List.map_congr_left (fun f hf => ?_)
  have h := hfok f hf
  show coerceCell (jsTrim f.data) = Cell.str f
  rw [h.1, h.2]

/-- C8 (amended): round-trip holds for tables whose data survives the parser's
lossy steps - distinct trim-stable headers, rows of the header's length whose
fields are trim-stable, free of carriage returns and not plain numeric literals,
and at least one nonempty field per row (header included): serializing with full
quoting and parsing reconstructs every field value exactly, as a record per data
row mapping each header to the original string. -/
theorem C8_roundtrip (headers : List String) (rows : List (List String))
    (hnd : headers.Nodup) (hhne : headers ≠ [])
    (hhsome : ∃ h ∈ headers, h ≠ "")
    (hhok : ∀ h ∈ headers, TrimStable h ∧ NoCR h)
    (hlen : ∀ r ∈ rows, r.length = headers.length)
    (hfok : ∀ r ∈ rows, ∀ f ∈ r, TrimStable f ∧ NoCR f ∧ KeptAsString f)
    (hrsome : ∀ r ∈ rows, ∃ f ∈ r, f ≠ "") :
    parseCSV (serializeTable (headers :: rows)) =
      rows.map (fun r => headers.zip (r.map Cell.str)) := by
  have hdata_ne : ∀ (f : String), f ≠ "" → f.data ≠ [] := by
    intro f hf e
    exact hf (String.ext e)
  have hrne : ∀ r ∈ rows, r ≠ [] := by
    intro r hr e
    have := hlen r hr
    rw [e] at this
    rcases headers with _ | ⟨h0, hs⟩
    · exact hhne rfl
    · exact absurd this.symm (by simp)
  have htabne : ∀ q ∈ headers :: rows, q ≠ [] := by
    intro q hq
    rcases List.mem_cons.mp hq with rfl | h1
    · exact hhne
    · exact hrne q h1
  -- the serialized text has no carriage return
  have hnocr : '\r' ∉ serializeTableChars (headers :: rows) := by
    intro hm
    rcases mem_serializeTableChars _ _ hm with h | h | h | ⟨r, hrmem, f, hfmem, hcmem⟩
    · exact absurd h (by decide)
    · exact absurd h (by decide)
    · exact absurd h (by decide)
    · rcases List.mem_cons.mp hrmem with rfl | hrr
      · exact (hhok f hfmem).2 hcmem
      · exact (hfok r hrr f hfmem).2.1 hcmem
  -- decomposition of the table as an initial segment plus a last row
  obtain ⟨rs, rlast, heq⟩ : ∃ rs rlast, headers :: rows = rs ++ [rlast] := by
    rcases List.eq_nil_or_concat (headers :: rows) with h | ⟨rs, rlast, h⟩
    · exact absurd h (by simp)
    · exact ⟨rs, rlast, by rw [h, List.concat_eq_append]⟩
  have hrs_ne : ∀ q ∈ rs, q ≠ [] := by
    intro q hq
    exact htabne q (by rw [heq]; exact List.mem_append.mpr (Or.inl hq))
  have hrlast_ne : rlast ≠ [] := by
    refine htabne rlast ?_
    rw [heq]
    exact List.mem_append.mpr (Or.inr (List.mem_cons_self rlast []))
  obtain ⟨lfs, lf, hlast_eq⟩ : ∃ fs f, rlast = fs ++ [f] := by
    rcases List.eq_nil_or_concat rlast with h | ⟨fs, f, h⟩
    · exact absurd h hrlast_ne
    · exact ⟨fs, f, by rw [h, List.concat_eq_append]⟩
  -- the whole-text trim is the identity
  have htrim : jsTrim (serializeTableChars (headers :: rows)) =
      serializeTableChars (headers :: rows) := by
    refine jsTrim_id _ ?_ ?_
    · intro c hc
      rw [serializeTableChars_head headers rows hhne] at hc
      have : c = '"' := by injection hc with h; exact h.symm
      subst this
      decide
    · intro c hc
      rw [heq, serializeTableChars_getLast rs rlast
        (by rw [hlast_eq]; exact serializeRow_getLast lfs lf)] at hc
      have : c = '"' := by injection hc with h; exact h.symm
      subst this
      decide
  -- the scanner recovers every row
  have hscan : csvScan false [] [] [] (serializeTableChars (headers :: rows)) =
      (headers.map String.data) :: rows.map (fun q => q.map String.data) := by
    rw [show serializeTableChars (headers :: rows) =
      serializeTableChars (rs ++ [rlast]) from by rw [heq]]
    rw [scan_table rs rlast [] hrs_ne hrlast_ne]
    rw [foldl_pushRowF_all _ _ ?_]
    · rw [List.nil_append, ← heq]
      rfl
    · intro row hrow
      rw [← heq] at hrow
      obtain ⟨q, hqmem, rfl⟩ := List.mem_map.mp hrow
      obtain ⟨f, hfmem, hfne⟩ : ∃ f ∈ q, f ≠ "" := by
        rcases List.mem_cons.mp hqmem with rfl | h1
        · exact hhsome
        · exact hrsome q h1
      have hts : jsTrim f.data = f.data := by
        rcases List.mem_cons.mp hqmem with rfl | h1
        · exact (hhok f hfmem).1
        · exact (hfok q h1 f hfmem).1
      rw [List.any_eq_true]
      refine ⟨f.data, List.mem_map.mpr ⟨f, hfmem, rfl⟩, ?_⟩
      rw [hts]
      simp [hdata_ne f hfne]
  -- assemble parseCSV
  have hdata : (serializeTable (headers :: rows)).data =
      serializeTableChars (headers :: rows) := rfl
  rw [parseCSV, hdata, normNL_id _ hnocr, htrim]
  rw [if_neg (by
    intro habs
    have h1 := serializeTableChars_head headers rows hhne
    rw [List.isEmpty_eq_true] at habs
    rw [habs] at h1
    exact absurd h1 (by simp))]
  rw [hscan]
  change (rows.map (fun q => q.map String.data)).map (fun values =>
      buildObj [] ((headers.map String.data).map (fun h => String.mk (jsTrim h))) values) =
    rows.map (fun r => headers.zip (r.map Cell.str))
  have hheaders : (headers.map String.data).map (fun h => String.mk (jsTrim h)) =
      headers := by
    rw [List.map_map]
    have : ∀ h ∈ headers, String.mk (jsTrim h.data) = h := by
      intro h hh
      rw [(hhok h hh).1]
    calc headers.map ((fun h => String.mk (jsTrim h)) ∘ String.data)
        = headers.map id := List.map_congr_left (fun h hh => this h hh)
      _ = headers := List.map_id headers
  rw [hheaders]
  rw [List.map_map]
  refine List.map_congr_left (fun r hr => ?_)
  show buildObj [] headers (r.map String.data) = headers.zip (r.map Cell.str)
  exact buildObj_record headers r hnd (hlen r hr)
    (fun f hf => ⟨(hfok r hr f hf).1, (hfok r hr f hf).2.2⟩)

/-- C8 counterexample: the round trip is not exact for arbitrary string fields -
the field "123" comes back as the number 123, not the string "123". -/
theorem C8_counterexample :
    parseCSV (serializeTable [["h"], ["123"]]) = [[("h", Cell.num 123)]] ∧
    parseCSV (serializeTable [["h"], ["123"]]) ≠ [[("h", Cell.str "123")]] := by
  decide

/-- C8 amended witness: a field holding a comma, a double quote and an embedded
newline survives the round trip exactly. -/
theorem C8_roundtrip_witness :
    (["h"] : List String).Nodup ∧
    parseCSV (serializeTable [["h"], ["a,\"b\nc"]]) =
      [["a,\"b\nc"]].map (fun r => (["h"] : List String).zip (r.map Cell.str)) :=
  ⟨by decide, C8_roundtrip ["h"] [["a,\"b\nc"]] (by decide) (by decide)
    ⟨"h", by decide, by decide⟩
    (fun h hh => by
      rcases List.mem_singleton.mp hh with rfl
      exact ⟨rfl, by decide⟩)
    (fun r hr => by
      rcases List.mem_singleton.mp hr with rfl
      decide)
    (fun r hr => by
      rcases List.mem_singleton.mp hr with rfl
      intro f hf
      rcases List.mem_singleton.mp hf with rfl
      refine ⟨rfl, by decide, ?_⟩
      show coerceCell _ = _
      decide)
    (fun r hr => by
      rcases List.mem_singleton.mp hr with rfl
      exact ⟨"a,\"b\nc", List.mem_singleton.mpr rfl, by decide⟩)⟩

end Pcbs
